import Mathlib

/-!
Verification of the story-generation core of the FeelEd storytelling app.

The development shallowly embeds the algorithmic core of the repository:

* `pcmToWav` — the PCM → WAV container encoder (services file, `pcmToWav`);
* the markdown section matcher implementing the JavaScript regular
  expression `#\s+([^:\n]+):?\s*\n([\s\S]*?)(?=#\s+|$)` together with the
  `exec` scan loop of `parseStoryFromMarkdown`;
* the required-key validator of `generateStoryAndAudio` / `generateStory`;
* the narration (TTS) request handler's text-cleaning pipeline
  (`api/generate-audio.js`);
* the best-effort narration wrapper `generateAudio` and the orchestrating
  hook `useStoryGenerator.startStoryGeneration`.

Strings are modelled as `List Char`; JavaScript numbers that hold byte or
size values are modelled as `Nat` with explicit `% 2 ^ 32` / `% 2 ^ 16`
where `DataView.setUint32` / `setUint16` truncate.
-/

/-- JavaScript `\s` / `String.prototype.trim` whitespace class
(WhiteSpace plus LineTerminator code points). -/
def isWs (c : Char) : Bool :=
  c = ' ' || c = '\t' || c = '\n' || c = '\r' ||
  c = Char.ofNat 11 || c = Char.ofNat 12 ||
  c = Char.ofNat 0x00a0 || c = Char.ofNat 0x1680 ||
  (Char.ofNat 0x2000 ≤ c && c ≤ Char.ofNat 0x200a) ||
  c = Char.ofNat 0x2028 || c = Char.ofNat 0x2029 ||
  c = Char.ofNat 0x202f || c = Char.ofNat 0x205f ||
  c = Char.ofNat 0x3000 || c = Char.ofNat 0xfeff

/-- JavaScript LineTerminator code points (what `^` in a multiline regex and
`.` care about). -/
def isLineTerm (c : Char) : Bool :=
  c = '\n' || c = '\r' || c = Char.ofNat 0x2028 || c = Char.ofNat 0x2029

/-- Character class `[^:\n]` of the section-heading regular expression. -/
def isHeadChar (c : Char) : Bool :=
  !(c = ':') && !(c = '\n')

/-- ASCII-only lower casing.  For the ASCII needles matched by this code
base (`title`, `api key`, the heading names) this agrees with JavaScript
`toLowerCase` / the `/i` flag: in a non-unicode JS regex a non-ASCII
character never canonicalizes to an ASCII one. -/
def asciiLower (c : Char) : Char :=
  if 'A' ≤ c && c ≤ 'Z' then Char.ofNat (c.toNat + 32) else c

/-- Lower-case a whole string (list of characters). -/
def lowerStr (l : List Char) : List Char := l.map asciiLower

/-- Left trim, JavaScript `trimStart` semantics. -/
def trimLeft (l : List Char) : List Char := l.dropWhile isWs

/-- JavaScript `String.prototype.trim` on a list of characters. -/
def trimList (l : List Char) : List Char :=
  ((l.dropWhile isWs).reverse.dropWhile isWs).reverse

/-- Does `n` occur at the very start of `h`? (`String.prototype.startsWith`,
used to build `includes`). -/
def startsWithL : List Char → List Char → Bool
  | [], _ => true
  | _ :: _, [] => false
  | a :: as, b :: bs => a == b && startsWithL as bs

/-- Contiguous-substring test: JavaScript `String.prototype.includes`. -/
def hasSeq (n : List Char) : List Char → Bool
  | [] => startsWithL n []
  | c :: t => startsWithL n (c :: t) || hasSeq n t

/-! ## PCM → WAV container encoder

Embeds `pcmToWav` from the frontend service file.  `writeString` stores the
UTF-16 code unit of each character with `setUint8`; for the ASCII tags used
here that is `Char.toNat`.  `setUint32`/`setUint16` store the value modulo
`2 ^ 32` / `2 ^ 16` in little-endian byte order; the byte decomposition
below is exactly that. -/

/-- Bytes written by `writeString view off s` for an ASCII string. -/
def writeStr (s : String) : List Nat := s.toList.map Char.toNat

/-- Little-endian bytes stored by `DataView.setUint16 (v, true)`. -/
def u16le (v : Nat) : List Nat := [v % 256, v / 256 % 256]

/-- Little-endian bytes stored by `DataView.setUint32 (v, true)`.
Note `v / 16777216 % 256 = v % 2 ^ 32 / 16777216`, so the stored bytes
agree with the JavaScript `ToUint32` truncation. -/
def u32le (v : Nat) : List Nat :=
  [v % 256, v / 256 % 256, v / 65536 % 256, v / 16777216 % 256]

/-- The PCM → WAV encoder `pcmToWav`: a fixed 44-byte RIFF/fmt/data header
followed by the payload, with the constants of the source (24 kHz, mono,
16-bit).  The header fields are written in the source's order and offsets;
offsets 0–43 are covered contiguously, so the buffer is the concatenation
below. -/
def pcmToWav (pcmData : List Nat) : List Nat :=
  let sampleRate := 24000
  let numChannels := 1
  let bitsPerSample := 16
  let blockAlign := numChannels * bitsPerSample / 8
  let byteRate := sampleRate * blockAlign
  let dataSize := pcmData.length
  writeStr "RIFF" ++ u32le (36 + dataSize) ++ writeStr "WAVE" ++
  writeStr "fmt " ++ u32le 16 ++ u16le 1 ++ u16le numChannels ++
  u32le sampleRate ++ u32le byteRate ++ u16le blockAlign ++
  u16le bitsPerSample ++ writeStr "data" ++ u32le dataSize ++ pcmData

/-- Byte at offset `i` of a buffer (0 outside the buffer). -/
def byteAt (l : List Nat) (i : Nat) : Nat := l.getD i 0

/-- Little-endian 16-bit read at offset `off`. -/
def readU16le (l : List Nat) (off : Nat) : Nat :=
  byteAt l off + 256 * byteAt l (off + 1)

/-- Little-endian 32-bit read at offset `off`. -/
def readU32le (l : List Nat) (off : Nat) : Nat :=
  byteAt l off + 256 * byteAt l (off + 1) + 65536 * byteAt l (off + 2) +
    16777216 * byteAt l (off + 3)

lemma byteAt_cons_succ (a : Nat) (l : List Nat) (i : Nat) :
    byteAt (a :: l) (i + 1) = byteAt l i := by
  simp [byteAt]

lemma byteAt_cons_zero (a : Nat) (l : List Nat) :
    byteAt (a :: l) 0 = a := by
  simp [byteAt]

lemma u32le_decode (v : Nat) (h : v < 4294967296) :
    v % 256 + 256 * (v / 256 % 256) + 65536 * (v / 65536 % 256) +
      16777216 * (v / 16777216 % 256) = v := by
  omega

/-- Claim C2: for every PCM payload of length `N` (with `36 + N`
representable in 32 bits, as for every buffer JavaScript can build), the
encoder output has total length `44 + N`, its little-endian 32-bit field at
offset 4 equals `36 + N`, its little-endian 32-bit field at offset 40
equals `N`, its little-endian 16-bit field at offset 20 equals 1 (PCM), and
the bytes from offset 44 on are the unchanged payload. -/
theorem claim2_wav_header_invariant (pcm : List Nat)
    (h : pcm.length + 36 < 4294967296) :
    (pcmToWav pcm).length = 44 + pcm.length ∧
    readU32le (pcmToWav pcm) 4 = 36 + pcm.length ∧
    readU32le (pcmToWav pcm) 40 = pcm.length ∧
    readU16le (pcmToWav pcm) 20 = 1 ∧
    (pcmToWav pcm).drop 44 = pcm := by
  have hw : pcmToWav pcm =
      [82, 73, 70, 70] ++ u32le (36 + pcm.length) ++
      ([87, 65, 86, 69, 102, 109, 116, 32] ++ u32le 16 ++ u16le 1 ++
        u16le 1 ++ u32le 24000 ++ u32le 48000 ++ u16le 2 ++ u16le 16 ++
        [100, 97, 116, 97] ++ u32le pcm.length ++ pcm) := by
    simp [pcmToWav, writeStr, u32le, u16le]
  constructor
  · simp [hw, u32le, u16le]
    omega
  refine ⟨?_, ?_, ?_, ?_⟩
  · simp only [hw, u32le, u16le, readU32le, List.cons_append, List.nil_append,
      byteAt_cons_succ, byteAt_cons_zero]
    exact u32le_decode (36 + pcm.length) (by omega)
  · simp only [hw, u32le, u16le, readU32le, List.cons_append, List.nil_append,
      byteAt_cons_succ, byteAt_cons_zero]
    exact u32le_decode pcm.length (by omega)
  · simp only [hw, u32le, u16le, readU16le, List.cons_append, List.nil_append,
      byteAt_cons_succ, byteAt_cons_zero]
  · simp only [hw, u32le, u16le, List.cons_append, List.nil_append]
    rfl

/-- Witness for C2 at the concrete payload `[1, 2, 3]`. -/
theorem claim2_wav_header_invariant_witness :
    ([1, 2, 3] : List Nat).length + 36 < 4294967296 ∧
    ((pcmToWav [1, 2, 3]).length = 44 + ([1, 2, 3] : List Nat).length ∧
     readU32le (pcmToWav [1, 2, 3]) 4 = 36 + ([1, 2, 3] : List Nat).length ∧
     readU32le (pcmToWav [1, 2, 3]) 40 = ([1, 2, 3] : List Nat).length ∧
     readU16le (pcmToWav [1, 2, 3]) 20 = 1 ∧
     (pcmToWav [1, 2, 3]).drop 44 = [1, 2, 3]) :=
  ⟨by decide, claim2_wav_header_invariant [1, 2, 3] (by decide)⟩

/-- Claim C9: the encoder is deterministic and pure — its output is a
function of the input byte list alone (sample rate, channel count and bit
depth are the fixed constants 24000, 1 and 16 inside the definition), so
two invocations on byte-identical inputs give byte-identical outputs. -/
theorem claim9_encoder_deterministic (p q : List Nat) (h : p = q) :
    pcmToWav p = pcmToWav q := by
  rw [h]

/-- Witness for C9 at a concrete input. -/
theorem claim9_encoder_deterministic_witness :
    pcmToWav [7, 8] = pcmToWav [7, 8] :=
  claim9_encoder_deterministic [7, 8] [7, 8] rfl

/-! ## The section-heading matcher

`parseStoryFromMarkdown` drives the JavaScript regular expression
`#\s+([^:\n]+):?\s*\n([\s\S]*?)(?=#\s+|$)` with a global `exec` loop.  The
functions below implement exactly that pattern's backtracking semantics on
a list of characters.

Two backtracking branches of the pattern are provably dead and therefore
resolved deterministically here:

* `:?` — if the character after the greedy `[^:\n]+` run is `:`, the
  skip-the-colon alternative can never succeed, because the very next
  pattern atom chain `\s*\n` would have to match at the `:` itself, and
  `:` is neither whitespace nor a newline.  So the colon is consumed
  exactly when present.
* giving back characters from the greedy `[^:\n]+` run — every character
  handed back is by construction neither `:` nor a newline, so the
  mandatory `\n` at the end of `\s*\n` can never be reached from a shorter
  group-1: the whitespace run starting inside the handed-back region stops
  at the same place or earlier and cannot contain a newline that the
  maximal run did not.  Hence group 1 is always the maximal run.

Giving back characters of the greedy `\s+` run does matter (for example on
`"#  :\n"`), and is implemented faithfully by the descending loop
`tryWs`. -/

/-- Suffix after the last `'\n'` of a list, if the list has one. -/
def afterLastNl : List Char → Option (List Char)
  | [] => none
  | c :: t =>
    match afterLastNl t with
    | some r => some r
    | none => if c = '\n' then some t else none

/-- Suffix after the last `'\n'`, the whole list when there is none. -/
def tailAfterNl (l : List Char) : List Char := (afterLastNl l).getD l

/-- Match the pattern tail `([^:\n]+):?\s*\n` at `u`.  Returns the captured
group 1 and the unconsumed suffix (the overall match ends at the matched
newline: `\s*` greedily keeps every whitespace character up to the last
newline of the whitespace run). -/
def afterWs (u : List Char) : Option (List Char × List Char) :=
  let g1 := u.takeWhile isHeadChar
  if g1 = [] then none
  else
    let t1 := u.drop g1.length
    let t2 := if t1.head? = some ':' then t1.tail else t1
    let run := t2.takeWhile isWs
    match afterLastNl run with
    | none => none
    | some tailRun => some (g1, tailRun ++ t2.drop run.length)

/-- Length of the maximal whitespace run at the front of `s`. -/
def wsLen (s : List Char) : Nat := (s.takeWhile isWs).length

/-- The greedy-with-backtracking `\s+` of the heading pattern: try taking
`a` whitespace characters, largest first, then the rest of the pattern. -/
def tryWs (t : List Char) : Nat → Option (List Char × List Char)
  | 0 => none
  | a + 1 =>
    match afterWs (t.drop (a + 1)) with
    | some r => some r
    | none => tryWs t a

/-- The lookahead `(?=#\s+|$)` at a suffix: either the end of the input, or
a `#` followed by at least one whitespace character.  The end-of-input
alternative is handled by the caller (`splitAtLookahead`'s `[]` case). -/
def lookOk : List Char → Bool
  | c :: d :: _ => c = '#' && isWs d
  | _ => false

/-- Lazy `([\s\S]*?)(?=#\s+|$)`: split off the shortest group 2 such that
the lookahead (or the end of the input) holds right after it. -/
def splitAtLookahead : List Char → List Char × List Char
  | [] => ([], [])
  | c :: t =>
    if lookOk (c :: t) then ([], c :: t)
    else
      let p := splitAtLookahead t
      (c :: p.1, p.2)

/-- Attempt the whole pattern anchored at the head of the input (which must
be `#`).  Returns (group 1, group 2, suffix after the match). -/
def matchAtHead : List Char → Option (List Char × List Char × List Char)
  | [] => none
  | c :: t =>
    if c = '#' then
      match tryWs t (wsLen t) with
      | none => none
      | some (g1, rest) =>
        let p := splitAtLookahead rest
        some (g1, p.1, p.2)
    else none

/-- `exec`'s scan: the leftmost match of the pattern, trying successive
start positions.  Returns the groups and the suffix after the match (the
`lastIndex` the loop resumes from). -/
def findMatch : List Char → Option (List Char × List Char × List Char)
  | [] => none
  | c :: t =>
    match matchAtHead (c :: t) with
    | some r => some r
    | none => findMatch t

/-- The `while ((match = sectionRegex.exec(markdown)) !== null)` loop,
collecting (group 1, group 2) pairs in order.  Fuel bounds the number of
iterations; `none` means the fuel ran out (never happens with the fuel
supplied by `sectionScan` — every match consumes at least one character). -/
def scanSections : Nat → List Char → Option (List (List Char × List Char))
  | 0, _ => none
  | fuel + 1, s =>
    match findMatch s with
    | none => some []
    | some (g1, g2, rest) =>
      match scanSections fuel rest with
      | none => none
      | some ms => some ((g1, g2) :: ms)

/-- The section scan with its canonical (sufficient) fuel. -/
def sectionScan (s : List Char) : Option (List (List Char × List Char)) :=
  scanSections (s.length + 1) s

/-! ## The story record and `parseStoryFromMarkdown` -/

/-- The six section keys of the `Story` interface. -/
inductive StoryKey
  | title
  | introduction
  | emotional_trigger
  | concept_explanation
  | resolution
  | moral_message
deriving DecidableEq

/-- The partial story record built by the parser: each field is `none`
until a section for it is matched (`Partial<Story>`). -/
structure PartialStory where
  title : Option (List Char) := none
  introduction : Option (List Char) := none
  emotional_trigger : Option (List Char) := none
  concept_explanation : Option (List Char) := none
  resolution : Option (List Char) := none
  moral_message : Option (List Char) := none
deriving DecidableEq

/-- The `headingMap` lookup on a trimmed, lower-cased heading. -/
def headingKeyOf (h : List Char) : Option StoryKey :=
  if h = "title".toList then some .title
  else if h = "introduction".toList then some .introduction
  else if h = "emotional trigger".toList then some .emotional_trigger
  else if h = "concept explanation".toList then some .concept_explanation
  else if h = "resolution".toList then some .resolution
  else if h = "moral message".toList then some .moral_message
  else none

/-- `story[storyKey] = content`. -/
def setStoryKey (st : PartialStory) (k : StoryKey) (v : List Char) :
    PartialStory :=
  match k with
  | .title => { st with title := some v }
  | .introduction => { st with introduction := some v }
  | .emotional_trigger => { st with emotional_trigger := some v }
  | .concept_explanation => { st with concept_explanation := some v }
  | .resolution => { st with resolution := some v }
  | .moral_message => { st with moral_message := some v }

/-- Field read-out by key. -/
def getStoryKey (st : PartialStory) (k : StoryKey) : Option (List Char) :=
  match k with
  | .title => st.title
  | .introduction => st.introduction
  | .emotional_trigger => st.emotional_trigger
  | .concept_explanation => st.concept_explanation
  | .resolution => st.resolution
  | .moral_message => st.moral_message

/-- The key a match stores to: group 1 trimmed, lower-cased, and looked up
in the heading map. -/
def matchKey (m : List Char × List Char) : Option StoryKey :=
  headingKeyOf (lowerStr (trimList m.1))

/-- The loop body of `parseStoryFromMarkdown`: on a heading-map hit store
the trimmed group 2 (later sections overwrite earlier ones). -/
def applyMatches (st : PartialStory)
    (ms : List (List Char × List Char)) : PartialStory :=
  ms.foldl
    (fun st m =>
      match matchKey m with
      | some k => setStoryKey st k (trimList m.2)
      | none => st)
    st

/-- JavaScript falsiness of an optional string field
(`undefined` or `""`). -/
def falsyOpt : Option (List Char) → Bool
  | none => true
  | some l => l.isEmpty

/-- Attempt the fallback title pattern `#\s+Title:\s*(.*)` (flag `i`)
anchored at the head of the input.  Only the maximal `\s+` run can work,
because the following atom is the literal `t`/`T`, never whitespace.
`\s*` is greedy (it may run across newlines), and `.` stops at a
LineTerminator. -/
def inlineTitleAt : List Char → Option (List Char)
  | [] => none
  | c :: t =>
    if c = '#' then
      if wsLen t = 0 then none
      else
        let u := t.drop (wsLen t)
        if lowerStr (u.take 6) = "title:".toList then
          let v := (u.drop 6).dropWhile isWs
          some (v.takeWhile (fun c => !(isLineTerm c)))
        else none
    else none

/-- Leftmost match of the fallback title pattern: the captured group. -/
def findInlineTitle : List Char → Option (List Char)
  | [] => none
  | c :: t =>
    match inlineTitleAt (c :: t) with
    | some r => some r
    | none => findInlineTitle t

/-- The special-case block of `parseStoryFromMarkdown`: when `story.title`
is falsy, try `markdown.match(/#\s+Title:\s*(.*)/i)` and store the trimmed
capture when it is truthy. -/
def titleFallback (md : List Char) (st : PartialStory) : PartialStory :=
  if falsyOpt st.title then
    match findInlineTitle md with
    | some cap => if cap.isEmpty then st else { st with title := some (trimList cap) }
    | none => st
  else st

/-- The full parser `parseStoryFromMarkdown`.  `none` only on fuel
exhaustion of the scan loop, which theorem `claim6_parser_total` rules
out. -/
def parseStoryFromMarkdown (md : List Char) : Option PartialStory :=
  (sectionScan md).map (fun ms => titleFallback md (applyMatches {} ms))

/-! ## The required-key validator of `generateStoryAndAudio` /
`generateStory` -/

/-- `requiredKeys` of the validator — note `emotional_trigger` is not
required. -/
def requiredKeys : List StoryKey :=
  [.title, .introduction, .concept_explanation, .resolution, .moral_message]

/-- JS key names, used for the consolidated error message. -/
def keyName : StoryKey → List Char
  | .title => "title".toList
  | .introduction => "introduction".toList
  | .emotional_trigger => "emotional_trigger".toList
  | .concept_explanation => "concept_explanation".toList
  | .resolution => "resolution".toList
  | .moral_message => "moral_message".toList

/-- `!story[key] || !story[key]?.trim()`: the field is absent, empty, or
whitespace-only. -/
def keyMissing (st : PartialStory) (k : StoryKey) : Bool :=
  match getStoryKey st k with
  | none => true
  | some l => (trimList l).isEmpty

/-- `missingKeys` as computed by the validator, as JS key names in
`requiredKeys` order. -/
def missingKeys (st : PartialStory) : List (List Char) :=
  (requiredKeys.filter (keyMissing st)).map keyName

/-- `Array.prototype.join` with a separator. -/
def joinSep (sep : List Char) : List (List Char) → List Char
  | [] => []
  | [x] => x
  | x :: y :: t => x ++ sep ++ joinSep sep (y :: t)

/-- The consolidated `StoryGenerationError` message template (an apostrophe
is spelled via its code point to keep the source line simple). -/
def storyErrMsg (names : List (List Char)) : List Char :=
  "The AI didn".toList ++ [Char.ofNat 39] ++
  "t generate a complete story. It missed the following sections: ".toList ++
  joinSep ", ".toList names ++ ". Please try again.".toList

/-- The validation step: return the record unchanged when every required
key is present and non-blank, otherwise the `StoryGenerationError`
message naming all missing keys. -/
def validateRecord (st : PartialStory) : Except (List Char) PartialStory :=
  if missingKeys st = [] then .ok st else .error (storyErrMsg (missingKeys st))

/-! ## Progress of the scan loop

Every successful match consumes at least the `#`, so the `exec` loop's
residual input shrinks strictly and the loop terminates.  This is the
content of claim C6: the parser cannot fail to terminate (and, being a
total function of the input, it cannot throw). -/

lemma afterLastNl_length {l r : List Char} (h : afterLastNl l = some r) :
    r.length < l.length := by
  induction l with
  | nil => simp [afterLastNl] at h
  | cons c t ih =>
    simp only [afterLastNl] at h
    cases ht : afterLastNl t with
    | some r' =>
      rw [ht] at h
      simp only [Option.some.injEq] at h
      subst h
      have := ih ht
      simpa using Nat.lt_succ_of_lt this
    | none =>
      rw [ht] at h
      by_cases hc : c = '\n'
      · simp [hc] at h
        subst h
        simp
      · simp [hc] at h

lemma splitAtLookahead_snd_length (l : List Char) :
    (splitAtLookahead l).2.length ≤ l.length := by
  induction l with
  | nil => simp [splitAtLookahead]
  | cons c t ih =>
    simp only [splitAtLookahead]
    by_cases hl : lookOk (c :: t) = true
    · simp [hl]
    · simp only [hl]
      simpa using Nat.le_succ_of_le ih

lemma afterWs_length {u : List Char} {g1 rem : List Char}
    (h : afterWs u = some (g1, rem)) : rem.length < u.length := by
  simp only [afterWs] at h
  by_cases hg : u.takeWhile isHeadChar = []
  · simp [hg] at h
  · simp only [hg, if_false] at h
    set t1 := u.drop (u.takeWhile isHeadChar).length with ht1
    set t2 := if t1.head? = some ':' then t1.tail else t1 with ht2
    set run := t2.takeWhile isWs with hrun
    cases hal : afterLastNl run with
    | none => rw [hal] at h; simp at h
    | some tailRun =>
      rw [hal] at h
      simp only [Option.some.injEq, Prod.mk.injEq] at h
      have hlt : tailRun.length < run.length := afterLastNl_length hal
      have hrunle : run.length ≤ t2.length := by
        have hs : (List.takeWhile isWs t2).Sublist t2 :=
          List.takeWhile_sublist isWs
        rw [hrun]
        exact hs.length_le
      have ht2le : t2.length ≤ t1.length := by
        rw [ht2]
        by_cases hh : t1.head? = some ':'
        · simp only [hh, if_true]
          exact t1.length_tail ▸ Nat.sub_le _ _
        · simp [hh]
      have ht1le : t1.length ≤ u.length := by
        rw [ht1, u.length_drop]
        exact Nat.sub_le u.length _
      have : rem = tailRun ++ t2.drop run.length := h.2.symm
      subst this
      have hdl : (t2.drop run.length).length = t2.length - run.length :=
        t2.length_drop run.length
      simp only [List.length_append, hdl]
      omega

lemma tryWs_length {t : List Char} {g1 rem : List Char} :
    ∀ {a : Nat}, tryWs t a = some (g1, rem) → rem.length < t.length := by
  intro a
  induction a with
  | zero => intro h; simp [tryWs] at h
  | succ a ih =>
    intro h
    simp only [tryWs] at h
    cases haw : afterWs (t.drop (a + 1)) with
    | some r =>
      rw [haw] at h
      simp only [Option.some.injEq] at h
      subst h
      calc rem.length < (t.drop (a + 1)).length := afterWs_length haw
        _ ≤ t.length := by
            rw [t.length_drop]
            omega
    | none =>
      rw [haw] at h
      exact ih h

lemma matchAtHead_length {s : List Char} {g1 g2 rest : List Char}
    (h : matchAtHead s = some (g1, g2, rest)) : rest.length < s.length := by
  cases s with
  | nil => simp [matchAtHead] at h
  | cons c t =>
    simp only [matchAtHead] at h
    by_cases hc : c = '#'
    · simp only [hc, if_true] at h
      cases htw : tryWs t (wsLen t) with
      | none => rw [htw] at h; simp at h
      | some r =>
        obtain ⟨g1', rem⟩ := r
        rw [htw] at h
        simp only [Option.some.injEq, Prod.mk.injEq] at h
        have hrest : rest = (splitAtLookahead rem).2 := h.2.2.symm
        subst hrest
        have h1 : (splitAtLookahead rem).2.length ≤ rem.length :=
          splitAtLookahead_snd_length rem
        have h2 : rem.length < t.length := tryWs_length htw
        simp only [List.length_cons]
        omega
    · simp [hc] at h

lemma findMatch_length {s : List Char} {g1 g2 rest : List Char}
    (h : findMatch s = some (g1, g2, rest)) : rest.length < s.length := by
  induction s with
  | nil => simp [findMatch] at h
  | cons c t ih =>
    simp only [findMatch] at h
    cases hma : matchAtHead (c :: t) with
    | some r =>
      rw [hma] at h
      simp only [Option.some.injEq] at h
      subst h
      exact matchAtHead_length hma
    | none =>
      rw [hma] at h
      have := ih h
      simp only [List.length_cons]
      omega

lemma scanSections_succ_none (f : Nat) {s : List Char}
    (h : findMatch s = none) : scanSections (f + 1) s = some [] := by
  simp [scanSections, h]

lemma scanSections_succ_some (f : Nat) {s g1 g2 rest : List Char}
    (h : findMatch s = some (g1, g2, rest)) :
    scanSections (f + 1) s =
      match scanSections f rest with
      | none => none
      | some ms => some ((g1, g2) :: ms) := by
  simp [scanSections, h]

lemma scanSections_congr :
    ∀ (n : Nat) (s : List Char) (f₁ f₂ : Nat), s.length ≤ n →
      s.length < f₁ → s.length < f₂ → scanSections f₁ s = scanSections f₂ s := by
  intro n
  induction n with
  | zero =>
    intro s f₁ f₂ h h1 h2
    have hs : s = [] := List.length_eq_zero.mp (Nat.le_zero.mp h)
    subst hs
    obtain ⟨a, rfl⟩ : ∃ a, f₁ = a + 1 := ⟨f₁ - 1, by omega⟩
    obtain ⟨b, rfl⟩ : ∃ b, f₂ = b + 1 := ⟨f₂ - 1, by omega⟩
    simp [scanSections, findMatch]
  | succ n ih =>
    intro s f₁ f₂ h h1 h2
    obtain ⟨a, rfl⟩ : ∃ a, f₁ = a + 1 := ⟨f₁ - 1, by omega⟩
    obtain ⟨b, rfl⟩ : ∃ b, f₂ = b + 1 := ⟨f₂ - 1, by omega⟩
    cases hf : findMatch s with
    | none => rw [scanSections_succ_none a hf, scanSections_succ_none b hf]
    | some r =>
      obtain ⟨g1, g2, rest⟩ := r
      have hlt := findMatch_length hf
      rw [scanSections_succ_some a hf, scanSections_succ_some b hf,
        ih rest a b (by omega) (by omega) (by omega)]

lemma scanSections_total :
    ∀ (n : Nat) (s : List Char) (f : Nat), s.length ≤ n → s.length < f →
      ∃ ms, scanSections f s = some ms := by
  intro n
  induction n with
  | zero =>
    intro s f h h1
    have hs : s = [] := List.length_eq_zero.mp (Nat.le_zero.mp h)
    subst hs
    obtain ⟨a, rfl⟩ : ∃ a, f = a + 1 := ⟨f - 1, by omega⟩
    exact ⟨[], by simp [scanSections, findMatch]⟩
  | succ n ih =>
    intro s f h h1
    obtain ⟨a, rfl⟩ : ∃ a, f = a + 1 := ⟨f - 1, by omega⟩
    cases hf : findMatch s with
    | none => exact ⟨[], by simp [scanSections, hf]⟩
    | some r =>
      obtain ⟨g1, g2, rest⟩ := r
      have hlt := findMatch_length hf
      obtain ⟨ms, hms⟩ := ih rest a (by omega) (by omega)
      exact ⟨(g1, g2) :: ms, by simp [scanSections, hf, hms]⟩

lemma sectionScan_total (s : List Char) : ∃ ms, sectionScan s = some ms :=
  scanSections_total s.length s (s.length + 1) le_rfl (Nat.lt_succ_self _)

lemma sectionScan_nil {s : List Char} (h : findMatch s = none) :
    sectionScan s = some [] := by
  unfold sectionScan
  simp [scanSections, h]

lemma sectionScan_cons {s g1 g2 rest : List Char}
    (h : findMatch s = some (g1, g2, rest)) :
    ∃ ms, sectionScan rest = some ms ∧ sectionScan s = some ((g1, g2) :: ms) := by
  obtain ⟨ms, hms⟩ := sectionScan_total rest
  refine ⟨ms, hms, ?_⟩
  have hlt := findMatch_length h
  unfold sectionScan
  simp only [scanSections, h]
  have hc : scanSections s.length rest = scanSections (rest.length + 1) rest :=
    scanSections_congr rest.length rest s.length (rest.length + 1) le_rfl
      (by omega) (Nat.lt_succ_self _)
  rw [hc]
  unfold sectionScan at hms
  rw [hms]

/-- Claim C6: on every input — malformed, heading-free, or empty — the
markdown section parser terminates normally and returns a (possibly
partial) record; it never fails.  In this embedding the only failure mode
is fuel exhaustion of the scan loop (`none`), and it is unreachable
because every match consumes at least one character. -/
theorem claim6_parser_total (md : List Char) :
    ∃ st, parseStoryFromMarkdown md = some st := by
  obtain ⟨ms, hms⟩ := sectionScan_total md
  exact ⟨titleFallback md (applyMatches {} ms), by
    simp [parseStoryFromMarkdown, hms]⟩

/-! ## Substring facts for the consolidated validator message -/

lemma startsWithL_refl (l : List Char) : startsWithL l l = true := by
  induction l with
  | nil => rfl
  | cons c t ih => simp [startsWithL, ih]

lemma startsWithL_append {n m : List Char} (b : List Char)
    (h : startsWithL n m = true) : startsWithL n (m ++ b) = true := by
  induction n generalizing m with
  | nil => rfl
  | cons a as ih =>
    cases m with
    | nil => simp [startsWithL] at h
    | cons x xs =>
      simp only [startsWithL, Bool.and_eq_true, beq_iff_eq] at h
      simp [startsWithL, h.1, ih h.2]

lemma hasSeq_of_startsWithL {n l : List Char} (h : startsWithL n l = true) :
    hasSeq n l = true := by
  cases l with
  | nil => simpa [hasSeq] using h
  | cons c t => simp [hasSeq, h]

lemma hasSeq_nil_left (l : List Char) : hasSeq [] l = true := by
  cases l <;> simp [hasSeq, startsWithL]

lemma hasSeq_append_right {n m : List Char} (b : List Char)
    (h : hasSeq n m = true) : hasSeq n (m ++ b) = true := by
  induction m with
  | nil =>
    simp only [hasSeq] at h
    cases n with
    | nil => exact hasSeq_nil_left b
    | cons a as => simp [startsWithL] at h
  | cons c t ih =>
    simp only [hasSeq, Bool.or_eq_true] at h
    rcases h with h | h
    · have := startsWithL_append b h
      simpa [hasSeq] using Or.inl this
    · simpa [hasSeq] using Or.inr (ih h)

lemma hasSeq_append_left {n m : List Char} (a : List Char)
    (h : hasSeq n m = true) : hasSeq n (a ++ m) = true := by
  induction a with
  | nil => simpa using h
  | cons x xs ih => simpa [hasSeq] using Or.inr ih

lemma hasSeq_joinSep {x : List Char} (sep : List Char) {l : List (List Char)}
    (h : x ∈ l) : hasSeq x (joinSep sep l) = true := by
  induction l with
  | nil => simp at h
  | cons y t ih =>
    cases t with
    | nil =>
      simp only [List.mem_singleton] at h
      subst h
      exact hasSeq_of_startsWithL (startsWithL_refl x)
    | cons z t' =>
      rcases List.mem_cons.mp h with h | h
      · subst h
        show hasSeq x (x ++ sep ++ joinSep sep (z :: t')) = true
        rw [List.append_assoc]
        exact hasSeq_of_startsWithL (startsWithL_append _ (startsWithL_refl x))
      · show hasSeq x (y ++ sep ++ joinSep sep (z :: t')) = true
        rw [List.append_assoc]
        exact hasSeq_append_left y (hasSeq_append_left sep (ih h))

/-- Claim C4: whenever two or more required keys are missing or blank, the
validation fails with the consolidated `StoryGenerationError` message, and
that message names every missing key (each key name occurs in the message
as a contiguous substring). -/
theorem claim4_validator_names_all_missing (st : PartialStory)
    (h : 2 ≤ (missingKeys st).length) :
    validateRecord st = .error (storyErrMsg (missingKeys st)) ∧
    ∀ k ∈ missingKeys st, hasSeq k (storyErrMsg (missingKeys st)) = true := by
  have hne : missingKeys st ≠ [] := by
    intro he
    rw [he] at h
    simp at h
  refine ⟨by simp [validateRecord, hne], ?_⟩
  intro k hk
  unfold storyErrMsg
  rw [show ("The AI didn".toList ++ [Char.ofNat 39] ++
      "t generate a complete story. It missed the following sections: ".toList ++
      joinSep ", ".toList (missingKeys st) ++ ". Please try again.".toList) =
      (("The AI didn".toList ++ [Char.ofNat 39] ++
        "t generate a complete story. It missed the following sections: ".toList) ++
       joinSep ", ".toList (missingKeys st)) ++ ". Please try again.".toList by
    simp [List.append_assoc]]
  exact hasSeq_append_right _ (hasSeq_append_left _ (hasSeq_joinSep _ hk))

/-- A record missing exactly `introduction` and `resolution`. -/
def stMissingTwo : PartialStory :=
  { title := some "T".toList
    concept_explanation := some "C".toList
    moral_message := some "M".toList }

/-- Witness for C4: the record missing `introduction` and `resolution`
fails validation with a message naming both. -/
theorem claim4_validator_names_all_missing_witness :
    2 ≤ (missingKeys stMissingTwo).length ∧
    (validateRecord stMissingTwo = .error (storyErrMsg (missingKeys stMissingTwo)) ∧
     ∀ k ∈ missingKeys stMissingTwo,
       hasSeq k (storyErrMsg (missingKeys stMissingTwo)) = true) :=
  ⟨by decide, claim4_validator_names_all_missing stMissingTwo (by decide)⟩

/-! ## Best-effort narration (`generateAudio` of the service +
`startStoryGeneration` of the hook)

The asynchronous calls are modelled by an outcome oracle: one constructor
per observable behaviour of the `fetch` to `/api/generate-audio`.
Exceptions thrown inside the `try` block are the `error` side of
`Except`; the `catch` block of `generateAudio` converts every one of them
to the JavaScript `null` (`none`). -/

/-- Observable outcomes of the narration fetch. -/
inductive AudioFetchOutcome
  | offline
  | abortTimeout
  | fetchFailure
  | httpError (errField : Option (List Char)) (status : Nat)
  | okJson (audioBase64 : Option (List Char))
deriving DecidableEq

/-- Exceptions that can be raised inside the `try` block of
`generateAudio`. -/
inductive AudioExn
  | abortExn
  | fetchExn
  | ttsExn (msg : List Char)
deriving DecidableEq

/-- `errorData.error || template` with JavaScript falsiness (an empty
string falls back to the template). -/
def audioErrOf (errField : Option (List Char)) (status : Nat) : List Char :=
  match errField with
  | some m => if m = [] then "Audio generation failed with status: ".toList ++ (toString status).toList else m
  | none => "Audio generation failed with status: ".toList ++ (toString status).toList

/-- The body of `generateAudio`'s `try` block: throws `TTSError` on a
non-ok response, propagates abort/transport exceptions, and resolves the
object URL (represented here by the audio payload it is built from) or
`null`. -/
def generateAudioBody : AudioFetchOutcome → Except AudioExn (Option (List Char))
  | .offline => .ok none
  | .abortTimeout => .error .abortExn
  | .fetchFailure => .error .fetchExn
  | .httpError e s => .error (.ttsExn (audioErrOf e s))
  | .okJson (some b) => .ok (some b)
  | .okJson none => .ok none

/-- `generateAudio`: offline short-circuits to `null` before the `try`;
the `catch` block converts every exception to `null` ("We don't throw a
user-facing error here, as audio is non-critical"). -/
def generateAudio (o : AudioFetchOutcome) : Option (List Char) :=
  match o with
  | .offline => none
  | _ =>
    match generateAudioBody o with
    | .ok v => v
    | .error _ => none

/-- Outcomes in which narration failed, timed out, or produced no audio. -/
def audioFailed : AudioFetchOutcome → Bool
  | .okJson (some _) => false
  | _ => true

/-- The four `AppError` kinds plus a plain (non-`AppError`) error. -/
inductive AppErrKind
  | network
  | api
  | storyGen
  | tts
  | plain
deriving DecidableEq

/-- An error value: its tag and its human-readable message. -/
structure ErrVal where
  kind : AppErrKind
  msg : List Char
deriving DecidableEq

/-- The success path of `startStoryGeneration`: once `generateStory` has
resolved with a validated story, the narration result is whatever
`generateAudio` resolves to — the hook merely stores it.  A story-stage
error propagates unchanged. -/
def runGeneration (storyRes : Except ErrVal (PartialStory × List Char))
    (o : AudioFetchOutcome) :
    Except ErrVal (PartialStory × Option (List Char)) :=
  match storyRes with
  | .error e => .error e
  | .ok (st, _md) => .ok (st, generateAudio o)

/-- Claim C3: when text generation succeeded and validated, a narration
failure or timeout never surfaces as an error: the operation still
returns the story, with the narration represented as `null` (`none`). -/
theorem claim3_narration_best_effort (st : PartialStory) (md : List Char)
    (o : AudioFetchOutcome) (h : audioFailed o = true) :
    runGeneration (.ok (st, md)) o = .ok (st, none) := by
  cases o with
  | offline => rfl
  | abortTimeout => rfl
  | fetchFailure => rfl
  | httpError e s => rfl
  | okJson b =>
    cases b with
    | none => rfl
    | some x => exact Bool.noConfusion h

/-- Witness for C3 at a concrete timed-out narration call. -/
theorem claim3_narration_best_effort_witness :
    audioFailed .abortTimeout = true ∧
    runGeneration (.ok ({ title := some "T".toList }, "# Title\nT".toList))
      .abortTimeout = .ok ({ title := some "T".toList }, none) :=
  ⟨rfl, claim3_narration_best_effort { title := some "T".toList }
    "# Title\nT".toList .abortTimeout rfl⟩

/-! ## The narration request handler (`api/generate-audio.js`)

The text-cleaning pipeline: truncate at the first literal `---`, delete
heading lines (`replace(/^#\s+[^:\n]+:?\s*\n/gm, '')`), trim, collapse runs
of three or more newlines to two, hard-truncate to `MAX_TTS_CHARACTERS =
1500`, reject if the result is empty. -/

/-- `String.prototype.indexOf('---')`: index of the first occurrence. -/
def idxOfTriple : List Char → Option Nat
  | [] => none
  | c :: t =>
    if startsWithL "---".toList (c :: t) then some 0
    else (idxOfTriple t).map (· + 1)

/-- Step 1: drop everything from the first `---` on (when present). -/
def truncAtDashes (s : List Char) : List Char :=
  match idxOfTriple s with
  | none => s
  | some i => s.take i

/-- Attempt `#\s+[^:\n]+:?\s*\n` (the heading pattern without capture) at
the head of the input; on success return the suffix after the match. -/
def headingLineMatch : List Char → Option (List Char)
  | [] => none
  | c :: t =>
    if c = '#' then (tryWs t (wsLen t)).map (fun r => r.2) else none

/-- Step 2: the global multiline replace deleting heading lines.  `atLS`
tracks whether the current position is a line start (`^` with flag `m`);
a deleted match always ends just after a newline, so scanning resumes at a
line start.  Fuel bounds the number of steps (`none` = exhausted, ruled
out by `stripHF_total`). -/
def stripHF : Nat → Bool → List Char → Option (List Char)
  | 0, _, _ => none
  | f + 1, atLS, s =>
    match s with
    | [] => some []
    | c :: t =>
      match (if atLS then headingLineMatch (c :: t) else none) with
      | some rest => stripHF f true rest
      | none => (stripHF f (isLineTerm c) t).map (c :: ·)

lemma headingLineMatch_length {s rest : List Char}
    (h : headingLineMatch s = some rest) : rest.length < s.length := by
  cases s with
  | nil => simp [headingLineMatch] at h
  | cons c t =>
    simp only [headingLineMatch] at h
    by_cases hc : c = '#'
    · simp only [hc, if_true] at h
      cases htw : tryWs t (wsLen t) with
      | none => rw [htw] at h; simp at h
      | some r =>
        rw [htw] at h
        simp only [Option.map, Option.some.injEq] at h
        subst h
        have := tryWs_length htw
        simp only [List.length_cons]
        omega
    · simp [hc] at h

lemma stripHF_total :
    ∀ (n f : Nat) (b : Bool) (s : List Char), s.length ≤ n → s.length < f →
      ∃ r, stripHF f b s = some r := by
  intro n
  induction n with
  | zero =>
    intro f b s h h1
    have hs : s = [] := List.length_eq_zero.mp (Nat.le_zero.mp h)
    subst hs
    obtain ⟨a, rfl⟩ : ∃ a, f = a + 1 := ⟨f - 1, by omega⟩
    exact ⟨[], rfl⟩
  | succ n ih =>
    intro f b s h h1
    obtain ⟨a, rfl⟩ : ∃ a, f = a + 1 := ⟨f - 1, by omega⟩
    cases s with
    | nil => exact ⟨[], rfl⟩
    | cons c t =>
      have hlen : (c :: t).length = t.length + 1 := rfl
      cases hm : (if b then headingLineMatch (c :: t) else none) with
      | some rest =>
        have hr : headingLineMatch (c :: t) = some rest := by
          by_cases hb : b
          · simpa [hb] using hm
          · simp [hb] at hm
        have hlt := headingLineMatch_length hr
        obtain ⟨r, hstep⟩ := ih a true rest (by omega) (by omega)
        refine ⟨r, ?_⟩
        simp only [stripHF, hm]
        exact hstep
      | none =>
        obtain ⟨r, hstep⟩ := ih a (isLineTerm c) t (by omega) (by omega)
        refine ⟨c :: r, ?_⟩
        simp only [stripHF, hm]
        rw [hstep]
        rfl

/-- Step 2 with its canonical (sufficient) fuel; the default branch is
unreachable by `stripHF_total`. -/
def stripHeadingLines (s : List Char) : List Char :=
  (stripHF (s.length + 1) true s).getD s

/-- Replacement text for a run of `p` pending newlines: runs of three or
more collapse to exactly two (`replace(/\n{3,}/g, '\n\n')`). -/
def emitNl (p : Nat) : List Char :=
  if 3 ≤ p then ['\n', '\n'] else List.replicate p '\n'

/-- Step 3b: scan accumulating the current newline-run length. -/
def collapseGo : List Char → Nat → List Char
  | [], p => emitNl p
  | c :: t, p =>
    if c = '\n' then collapseGo t (p + 1) else emitNl p ++ c :: collapseGo t 0

/-- Step 3b: collapse runs of 3+ newlines to exactly 2. -/
def collapseNl (s : List Char) : List Char := collapseGo s 0

/-- Steps 1–3 of the handler's cleaning pipeline, in source order:
truncate at `---`, delete heading lines, trim, collapse newlines. -/
def cleanStoryText (md : List Char) : List Char :=
  collapseNl (trimList (stripHeadingLines (truncAtDashes md)))

/-- Observable handler responses relevant to the claim. -/
inductive TtsResponse
  | badRequest (msg : List Char)
  | sent (text : List Char)
deriving DecidableEq

/-- The body of the `api/generate-audio` handler from request validation
to the text handed to the TTS model: 400 on missing fields, clean, 
hard-truncate to 1500 characters, 400 when nothing is left, otherwise send
the cleaned text. -/
def generateAudioHandler (storyMarkdown voice : List Char) : TtsResponse :=
  if storyMarkdown = [] ∨ voice = [] then
    .badRequest "Missing storyMarkdown or voice for audio generation.".toList
  else
    let c := cleanStoryText storyMarkdown
    let c2 := if 1500 < c.length then c.take 1500 else c
    if c2 = [] then
      .badRequest "Cannot generate audio from an empty or malformed story.".toList
    else .sent c2

/-- Claim C5: the narration text is the cleaning pipeline's output
hard-truncated at 1500 characters: whenever the cleaned text exceeds 1500
characters the handler sends exactly the first 1500 of them (length
exactly 1500), and truncation alone never produces an error response. -/
theorem claim5_tts_truncation (md voice : List Char) (hv : voice ≠ [])
    (h : 1500 < (cleanStoryText md).length) :
    generateAudioHandler md voice = .sent ((cleanStoryText md).take 1500) ∧
    ((cleanStoryText md).take 1500).length = 1500 := by
  have hmd : md ≠ [] := by
    intro he
    subst he
    rw [show cleanStoryText [] = [] from rfl] at h
    simp at h
  have htl : ((cleanStoryText md).take 1500).length = 1500 := by
    rw [List.length_take]
    omega
  refine ⟨?_, htl⟩
  have hne : (cleanStoryText md).take 1500 ≠ [] := by
    intro he
    rw [he] at htl
    simp at htl
  simp only [generateAudioHandler]
  rw [if_neg (by tauto)]
  simp only [h, if_true]
  rw [if_neg hne]

/-! ## Witness support for C5: the cleaning pipeline leaves a long run of
letters unchanged. -/

lemma trimList_of_no_ws {l : List Char} (h : ∀ x ∈ l, isWs x = false) :
    trimList l = l := by
  have hd : ∀ (m : List Char), (∀ x ∈ m, isWs x = false) →
      m.dropWhile isWs = m := by
    intro m hm
    cases m with
    | nil => rfl
    | cons c t => simp [List.dropWhile, hm c (by simp)]
  unfold trimList
  rw [hd l h, hd l.reverse (fun x hx => h x (List.mem_reverse.mp hx)),
    List.reverse_reverse]

lemma idxOfTriple_replicate_a (n : Nat) :
    idxOfTriple (List.replicate n 'a') = none := by
  induction n with
  | zero => rfl
  | succ n ih =>
    rw [List.replicate_succ]
    have hsw : startsWithL ['-', '-', '-'] ('a' :: List.replicate n 'a') =
        false := rfl
    simp [idxOfTriple, hsw, ih]

lemma stripHF_replicate_a :
    ∀ (n f : Nat) (b : Bool), n < f →
      stripHF f b (List.replicate n 'a') = some (List.replicate n 'a') := by
  intro n
  induction n with
  | zero =>
    intro f b h
    obtain ⟨a, rfl⟩ : ∃ a, f = a + 1 := ⟨f - 1, by omega⟩
    rfl
  | succ n ih =>
    intro f b h
    obtain ⟨a, rfl⟩ : ∃ a, f = a + 1 := ⟨f - 1, by omega⟩
    rw [List.replicate_succ]
    have hm : headingLineMatch ('a' :: List.replicate n 'a') = none := rfl
    have hcond : (if b then headingLineMatch ('a' :: List.replicate n 'a')
        else none) = none := by
      cases b with
      | false => rfl
      | true => exact hm
    simp only [stripHF, hcond]
    rw [ih a (isLineTerm 'a') (by omega)]
    rfl

lemma collapseGo_replicate_a (n : Nat) :
    collapseGo (List.replicate n 'a') 0 = List.replicate n 'a' := by
  induction n with
  | zero => rfl
  | succ n ih =>
    rw [List.replicate_succ]
    simp only [collapseGo]
    rw [if_neg (by decide)]
    simp [emitNl, ih]

lemma cleanStoryText_replicate_a (n : Nat) :
    cleanStoryText (List.replicate n 'a') = List.replicate n 'a' := by
  have h1 : truncAtDashes (List.replicate n 'a') = List.replicate n 'a' := by
    unfold truncAtDashes
    rw [idxOfTriple_replicate_a]
  have h2 : stripHeadingLines (List.replicate n 'a') = List.replicate n 'a' := by
    unfold stripHeadingLines
    rw [List.length_replicate, stripHF_replicate_a n (n + 1) true (by omega)]
    rfl
  have h3 : trimList (List.replicate n 'a') = List.replicate n 'a' :=
    trimList_of_no_ws (by
      intro x hx
      rw [List.eq_of_mem_replicate hx]
      decide)
  unfold cleanStoryText
  rw [h1, h2, h3]
  exact collapseGo_replicate_a n

/-- Witness for C5: a 1501-character cleaned story is sent truncated to
exactly 1500 characters, with no error response. -/
theorem claim5_tts_truncation_witness :
    ("Kore".toList ≠ ([] : List Char)) ∧
    1500 < (cleanStoryText (List.replicate 1501 'a')).length ∧
    (generateAudioHandler (List.replicate 1501 'a') "Kore".toList =
      .sent ((cleanStoryText (List.replicate 1501 'a')).take 1500) ∧
     ((cleanStoryText (List.replicate 1501 'a')).take 1500).length = 1500) :=
  ⟨by decide, by rw [cleanStoryText_replicate_a, List.length_replicate]; omega,
   claim5_tts_truncation (List.replicate 1501 'a') "Kore".toList (by decide)
     (by rw [cleanStoryText_replicate_a, List.length_replicate]; omega)⟩

/-! ## Error-kind dispatch in the caller (`useStoryGenerator`)

The hook's `catch` block distinguishes the three named `AppError`
subclasses by `instanceof`, but inside the `APIError` branch it
additionally inspects the message text (`message.includes('not
configured') || message.toLowerCase().includes('api key')`) to decide
whether to signal that an API key is required. -/

/-- What the catch block decides to do (before the message is attached):
signal that an API key is required, or fail with a per-kind title. -/
inductive GenDecision
  | requiresApiKey
  | failedWith (title : List Char)
deriving DecidableEq

/-- Default title `An Unexpected Error Occurred`. -/
def defaultErrTitle : List Char := "An Unexpected Error Occurred".toList

/-- Default message `Something went wrong. Please try again.`. -/
def defaultErrMsg : List Char := "Something went wrong. Please try again.".toList

/-- Full outcome of the catch block: the decision plus the user-facing
message. -/
inductive GenOutcome
  | requiresApiKey
  | failedWith (title msg : List Char)
deriving DecidableEq

/-- The classification performed by `startStoryGeneration`'s catch block. -/
def classifyGenError (e : ErrVal) : GenOutcome :=
  match e.kind with
  | .network => .failedWith "Network Connection Error".toList e.msg
  | .api =>
    if hasSeq "not configured".toList e.msg ||
        hasSeq "api key".toList (lowerStr e.msg) then
      .requiresApiKey
    else .failedWith "AI Service Error".toList e.msg
  | .storyGen => .failedWith "Story Generation Failed".toList e.msg
  | .tts => .failedWith defaultErrTitle e.msg
  | .plain =>
    .failedWith defaultErrTitle (if e.msg = [] then defaultErrMsg else e.msg)

/-- The decision part of an outcome (what branch the caller takes,
independently of the displayed message). -/
def decisionOf : GenOutcome → GenDecision
  | .requiresApiKey => .requiresApiKey
  | .failedWith t _ => .failedWith t

/-- Counterexample to C7 as stated: two `APIError` values with different
messages are dispatched to different branches, so the caller's decision is
not a function of the type tag alone — it string-matches the message. -/
theorem claim7_counterexample :
    decisionOf (classifyGenError ⟨.api, "api key is invalid".toList⟩) ≠
    decisionOf (classifyGenError ⟨.api, "server exploded".toList⟩) := by
  decide

/-- Claim C7 (amended): for the kinds other than `APIError` the caller's
decision depends only on the type tag, and for `APIError` the caller
signals "API key required" exactly when the message contains
`not configured` or (lower-cased) `api key`. -/
theorem claim7_kind_dispatch_amended (k : AppErrKind) (m1 m2 : List Char)
    (hk : k ≠ .api) :
    decisionOf (classifyGenError ⟨k, m1⟩) =
      decisionOf (classifyGenError ⟨k, m2⟩) ∧
    ∀ m : List Char,
      (classifyGenError ⟨.api, m⟩ = .requiresApiKey ↔
        (hasSeq "not configured".toList m ||
          hasSeq "api key".toList (lowerStr m)) = true) := by
  constructor
  · cases k with
    | api => exact absurd rfl hk
    | network => rfl
    | storyGen => rfl
    | tts => rfl
    | plain => rfl
  · intro m
    have hcl : classifyGenError ⟨.api, m⟩ =
        if hasSeq "not configured".toList m ||
            hasSeq "api key".toList (lowerStr m) then
          GenOutcome.requiresApiKey
        else GenOutcome.failedWith "AI Service Error".toList m := rfl
    rw [hcl]
    by_cases hm : (hasSeq "not configured".toList m ||
        hasSeq "api key".toList (lowerStr m)) = true
    · rw [if_pos hm]
      simpa using hm
    · rw [if_neg hm]
      simpa using hm

/-- Witness for the amended C7 at concrete inputs. -/
theorem claim7_kind_dispatch_amended_witness :
    (AppErrKind.network ≠ .api) ∧
    (decisionOf (classifyGenError ⟨.network, "a".toList⟩) =
      decisionOf (classifyGenError ⟨.network, "b".toList⟩) ∧
     ∀ m : List Char,
      (classifyGenError ⟨.api, m⟩ = .requiresApiKey ↔
        (hasSeq "not configured".toList m ||
          hasSeq "api key".toList (lowerStr m)) = true)) :=
  ⟨by decide,
   claim7_kind_dispatch_amended .network "a".toList "b".toList (by decide)⟩

/-! ## Field bookkeeping for the parse loop -/

lemma getStoryKey_set_same (st : PartialStory) (k : StoryKey) (v : List Char) :
    getStoryKey (setStoryKey st k v) k = some v := by
  cases k <;> rfl

lemma getStoryKey_set_other (st : PartialStory) {k k' : StoryKey}
    (v : List Char) (h : k ≠ k') :
    getStoryKey (setStoryKey st k' v) k = getStoryKey st k := by
  cases k <;> cases k' <;> first | exact absurd rfl h | rfl

lemma getStoryKey_title_update (st : PartialStory) (v : Option (List Char))
    {k : StoryKey} (hk : k ≠ .title) :
    getStoryKey { st with title := v } k = getStoryKey st k := by
  cases k <;> first | exact absurd rfl hk | rfl

/-- The field stored for key `k` after the parse loop is the trimmed
content of the last match whose heading maps to `k` (later sections
overwrite earlier ones); when no match maps to `k` the field is
untouched. -/
lemma applyMatches_cons (st : PartialStory) (m : List Char × List Char)
    (ms : List (List Char × List Char)) :
    applyMatches st (m :: ms) =
      applyMatches
        (match matchKey m with
         | some k => setStoryKey st k (trimList m.2)
         | none => st) ms := rfl

lemma applyMatches_field :
    ∀ (ms : List (List Char × List Char)) (st : PartialStory) (k : StoryKey),
      getStoryKey (applyMatches st ms) k =
        match (ms.filter (fun m => matchKey m = some k)).getLast? with
        | some m => some (trimList m.2)
        | none => getStoryKey st k := by
  intro ms
  induction ms with
  | nil => intro st k; rfl
  | cons m ms' ih =>
    intro st k
    cases hmk : matchKey m with
    | none =>
      have hfilter : (m :: ms').filter (fun x => matchKey x = some k) =
          ms'.filter (fun x => matchKey x = some k) := by
        simp [List.filter_cons, hmk]
      rw [applyMatches_cons, hmk, hfilter, ih]
    | some k' =>
      by_cases hkk : k' = k
      · subst hkk
        have hfilter : (m :: ms').filter (fun x => matchKey x = some k') =
            m :: ms'.filter (fun x => matchKey x = some k') := by
          simp [List.filter_cons, hmk]
        rw [applyMatches_cons, hmk, hfilter, ih]
        cases hms : ms'.filter (fun x => matchKey x = some k') with
        | nil => simp [getStoryKey_set_same]
        | cons y ys =>
          rw [List.getLast?_cons_cons]
          cases hgl : (y :: ys).getLast? with
          | none => exact absurd (List.getLast?_eq_none_iff.mp hgl) (by simp)
          | some z => rfl
      · have hfilter : (m :: ms').filter (fun x => matchKey x = some k) =
            ms'.filter (fun x => matchKey x = some k) := by
          simp [List.filter_cons, hmk, hkk]
        rw [applyMatches_cons, hmk, hfilter, ih]
        cases hms : ms'.filter (fun x => matchKey x = some k) with
        | nil =>
          exact getStoryKey_set_other st (trimList m.2) (fun he => hkk he.symm)
        | cons y ys =>
          cases hgl : (y :: ys).getLast? with
          | none => exact absurd (List.getLast?_eq_none_iff.mp hgl) (by simp)
          | some z => rfl

/-- `titleFallback` never touches a field other than `title`. -/
lemma titleFallback_other (md : List Char) (st : PartialStory)
    {k : StoryKey} (hk : k ≠ .title) :
    getStoryKey (titleFallback md st) k = getStoryKey st k := by
  unfold titleFallback
  by_cases hf : falsyOpt st.title = true
  · rw [if_pos hf]
    cases hit : findInlineTitle md with
    | none => rfl
    | some cap =>
      by_cases hcap : cap.isEmpty
      · simp [hcap]
      · simp only [hcap, Bool.false_eq_true, if_false]
        exact getStoryKey_title_update st _ hk
  · rw [if_neg hf]

/-- Claim C10: when a recognized non-title heading occurs several times,
the parser's field for that heading is the trimmed content of the last
matched occurrence — each later section overwrites the earlier value. -/
theorem claim10_last_occurrence_wins (md : List Char)
    (ms : List (List Char × List Char)) (k : StoryKey)
    (m : List Char × List Char)
    (hk : k ≠ .title)
    (hscan : sectionScan md = some ms)
    (_hmulti : 2 ≤ (ms.filter (fun x => matchKey x = some k)).length)
    (hlast : (ms.filter (fun x => matchKey x = some k)).getLast? = some m) :
    ∃ st, parseStoryFromMarkdown md = some st ∧
      getStoryKey st k = some (trimList m.2) := by
  refine ⟨titleFallback md (applyMatches {} ms),
    by simp [parseStoryFromMarkdown, hscan], ?_⟩
  rw [titleFallback_other md _ hk, applyMatches_field ms {} k, hlast]

/-- Witness for C10: a text with two `# Resolution` sections parses to the
second one's trimmed content. -/
theorem claim10_last_occurrence_wins_witness :
    (StoryKey.resolution ≠ .title) ∧
    sectionScan "# Resolution\nfirst\n# Resolution\nsecond".toList =
      some [("Resolution".toList, "first".toList ++ [Char.ofNat 10]),
            ("Resolution".toList, "second".toList)] ∧
    (∃ st, parseStoryFromMarkdown
        "# Resolution\nfirst\n# Resolution\nsecond".toList = some st ∧
      getStoryKey st .resolution = some (trimList "second".toList)) := by
  refine ⟨by decide, by decide, ?_⟩
  exact claim10_last_occurrence_wins
    "# Resolution\nfirst\n# Resolution\nsecond".toList
    [("Resolution".toList, "first".toList ++ [Char.ofNat 10]),
     ("Resolution".toList, "second".toList)]
    .resolution ("Resolution".toList, "second".toList)
    (by decide) (by decide) (by decide) (by decide)

/-- Claim C8: when the section scan stored no title but the input has an
inline `# Title: <rest>` line (case-insensitive), the parser falls back to
storing `<rest>` trimmed as the title. -/
theorem claim8_inline_title_fallback (md : List Char)
    (ms : List (List Char × List Char)) (cap : List Char)
    (hscan : sectionScan md = some ms)
    (htitle : (applyMatches {} ms).title = none)
    (hcap : findInlineTitle md = some cap)
    (hne : cap ≠ []) :
    ∃ st, parseStoryFromMarkdown md = some st ∧
      st.title = some (trimList cap) := by
  refine ⟨titleFallback md (applyMatches {} ms),
    by simp [parseStoryFromMarkdown, hscan], ?_⟩
  unfold titleFallback
  rw [htitle]
  have hcape : cap.isEmpty = false := by
    cases cap with
    | nil => exact absurd rfl hne
    | cons c t => rfl
  simp [falsyOpt, hcap, hcape]

/-- Witness for C8 on the source's own example `# Title: My Awesome
Story`. -/
theorem claim8_inline_title_fallback_witness :
    sectionScan "# Title: My Awesome Story".toList = some [] ∧
    (applyMatches {} []).title = none ∧
    findInlineTitle "# Title: My Awesome Story".toList =
      some "My Awesome Story".toList ∧
    ("My Awesome Story".toList ≠ []) ∧
    (∃ st, parseStoryFromMarkdown "# Title: My Awesome Story".toList =
        some st ∧ st.title = some (trimList "My Awesome Story".toList)) := by
  refine ⟨by decide, rfl, by decide, by decide, ?_⟩
  exact claim8_inline_title_fallback "# Title: My Awesome Story".toList []
    "My Awesome Story".toList (by decide) rfl (by decide) (by decide)

/-! ## Whitespace and trim lemmas -/

lemma takeWhile_all_append {p : Char → Bool} {l : List Char} {y : Char}
    (hl : ∀ x ∈ l, p x = true) (hy : p y = false) (r : List Char) :
    (l ++ y :: r).takeWhile p = l := by
  induction l with
  | nil => simp [List.takeWhile_cons, hy]
  | cons c t ih =>
    rw [List.cons_append, List.takeWhile_cons, hl c (by simp)]
    rw [ih (fun x hx => hl x (by simp [hx]))]
    simp

lemma dropWhile_all_append {p : Char → Bool} {w : List Char}
    (hw : ∀ x ∈ w, p x = true) (l : List Char) :
    (w ++ l).dropWhile p = l.dropWhile p := by
  induction w with
  | nil => rfl
  | cons c t ih =>
    rw [List.cons_append, List.dropWhile_cons, hw c (by simp)]
    simp only [if_true]
    exact ih (fun x hx => hw x (by simp [hx]))

lemma dropWhile_all_nil {p : Char → Bool} {w : List Char}
    (hw : ∀ x ∈ w, p x = true) : w.dropWhile p = [] :=
  List.dropWhile_eq_nil_iff.mpr (fun x hx => hw x hx)

lemma dropWhile_head_false {p : Char → Bool} :
    ∀ {l : List Char} {d : Char} {e : List Char},
      l.dropWhile p = d :: e → p d = false := by
  intro l
  induction l with
  | nil => intro d e h; simp at h
  | cons c t ih =>
    intro d e h
    rw [List.dropWhile_cons] at h
    by_cases hc : p c = true
    · rw [if_pos hc] at h
      exact ih h
    · rw [if_neg hc] at h
      cases h
      simpa using hc

lemma dropWhile_append_last {p : Char → Bool} {x : Char} (hx : p x = false) :
    ∀ (a : List Char), (a ++ [x]).dropWhile p = a.dropWhile p ++ [x] := by
  intro a
  induction a with
  | nil => simp [List.dropWhile_cons, hx]
  | cons c t ih =>
    rw [List.cons_append, List.dropWhile_cons, List.dropWhile_cons]
    by_cases hc : p c = true
    · rw [if_pos hc, if_pos hc, ih]
    · rw [if_neg hc, if_neg hc, List.cons_append]

lemma trim_ws_append {w l : List Char} (hw : ∀ x ∈ w, isWs x = true) :
    trimList (w ++ l) = trimList l := by
  unfold trimList
  rw [dropWhile_all_append hw]

lemma trim_append_ws {l w : List Char} (hw : ∀ x ∈ w, isWs x = true) :
    trimList (l ++ w) = trimList l := by
  cases hd : l.dropWhile isWs with
  | nil =>
    have hall : ∀ x ∈ l, isWs x = true := List.dropWhile_eq_nil_iff.mp hd
    have h1 : (l ++ w).dropWhile isWs = [] := by
      rw [dropWhile_all_append hall]
      exact dropWhile_all_nil hw
    unfold trimList
    rw [hd, h1]
  | cons d e =>
    have hdf : isWs d = false := dropWhile_head_false hd
    have hsplit : l = l.takeWhile isWs ++ (d :: e) := by
      rw [← hd, List.takeWhile_append_dropWhile]
    have h1 : (l ++ w).dropWhile isWs = d :: (e ++ w) := by
      conv_lhs => rw [hsplit]
      rw [List.append_assoc,
        dropWhile_all_append (fun x hx => List.mem_takeWhile_imp hx),
        List.cons_append, List.dropWhile_cons, hdf]
      simp
    unfold trimList
    rw [hd, h1, List.reverse_cons, List.reverse_append, List.append_assoc,
      dropWhile_all_append (fun x hx => hw x (List.mem_reverse.mp hx)),
      List.reverse_cons]

lemma isEmpty_false_of_ne_nil {l : List Char} (h : l ≠ []) :
    l.isEmpty = false := by
  cases l with
  | nil => exact absurd rfl h
  | cons a t => rfl

lemma trim_trim (l : List Char) : trimList (trimList l) = trimList l := by
  cases hdl : l.dropWhile isWs with
  | nil =>
    have h0 : trimList l = [] := by
      unfold trimList
      rw [hdl]
      rfl
    rw [h0]
    rfl
  | cons h0 t0 =>
    have hh0 : isWs h0 = false := dropWhile_head_false hdl
    have ht : trimList l = h0 :: (t0.reverse.dropWhile isWs).reverse := by
      unfold trimList
      rw [hdl, List.reverse_cons, dropWhile_append_last hh0, List.reverse_append]
      rfl
    rw [ht]
    unfold trimList
    rw [List.dropWhile_cons, hh0]
    simp only [Bool.false_eq_true, if_false]
    rw [List.reverse_cons]
    cases hz : t0.reverse.dropWhile isWs with
    | nil => simp [List.dropWhile_cons, hh0]
    | cons z0 z' =>
      have hzf : isWs z0 = false := dropWhile_head_false hz
      rw [List.reverse_reverse, List.cons_append, List.dropWhile_cons, hzf]
      simp only [Bool.false_eq_true, if_false]
      rw [← List.cons_append, List.reverse_append]
      rfl

lemma trim_ne_decomp {c : List Char} (h : trimList c ≠ []) :
    ∃ w d e, c = w ++ d :: e ∧ (∀ x ∈ w, isWs x = true) ∧ isWs d = false := by
  cases hdc : c.dropWhile isWs with
  | nil =>
    exfalso
    apply h
    unfold trimList
    rw [hdc]
    rfl
  | cons d e =>
    exact ⟨c.takeWhile isWs, d, e,
      by rw [← hdc, List.takeWhile_append_dropWhile],
      fun x hx => List.mem_takeWhile_imp hx, dropWhile_head_false hdc⟩

/-! ## Behaviour of the matcher on a well-formed heading block

The pattern matched against `# <Name>\n<content><rest>` (with `<Name>`
colon-, newline- and hash-free and `<content>` containing a non-whitespace
character and no `#`) succeeds with group 1 = `<Name>` and a group 2 that
trims to the trimmed content; the match ends exactly where `<rest>`
starts. -/

lemma afterLastNl_newline (l : List Char) :
    afterLastNl ('\n' :: l) = some (tailAfterNl l) := by
  simp only [afterLastNl]
  cases h : afterLastNl l with
  | some r => simp [tailAfterNl, h]
  | none => simp [tailAfterNl, h]

lemma afterLastNl_mem :
    ∀ {l r : List Char}, afterLastNl l = some r → ∀ x ∈ r, x ∈ l := by
  intro l
  induction l with
  | nil => intro r h; simp [afterLastNl] at h
  | cons c t ih =>
    intro r h x hx
    simp only [afterLastNl] at h
    cases ht : afterLastNl t with
    | some r' =>
      rw [ht] at h
      simp only [Option.some.injEq] at h
      subst h
      exact List.mem_cons_of_mem c (ih ht x hx)
    | none =>
      rw [ht] at h
      by_cases hc : c = '\n'
      · simp only [hc, if_true, Option.some.injEq] at h
        subst h
        exact List.mem_cons_of_mem c hx
      · simp [hc] at h

lemma tailAfterNl_mem {l : List Char} : ∀ x ∈ tailAfterNl l, x ∈ l := by
  intro x hx
  unfold tailAfterNl at hx
  cases h : afterLastNl l with
  | none => rw [h] at hx; exact hx
  | some r =>
    rw [h] at hx
    exact afterLastNl_mem h x hx

lemma splitAtLookahead_append {p R : List Char}
    (hp : ∀ x ∈ p, x ≠ '#') (hR : R = [] ∨ lookOk R = true) :
    splitAtLookahead (p ++ R) = (p, R) := by
  induction p with
  | nil =>
    rcases hR with h | h
    · subst h
      rfl
    · cases R with
      | nil => rfl
      | cons c t => simp [splitAtLookahead, h]
  | cons c t ih =>
    have hc : c ≠ '#' := hp c (by simp)
    have hlk : lookOk (c :: (t ++ R)) = false := by
      cases htR : t ++ R with
      | nil => rfl
      | cons d u => simp [lookOk, hc]
    rw [List.cons_append]
    simp only [splitAtLookahead, hlk]
    rw [ih (fun x hx => hp x (by simp [hx]))]
    rfl

lemma afterWs_section (H w e R : List Char) (d : Char)
    (hHne : H ≠ [])
    (hHhc : ∀ x ∈ H, isHeadChar x = true)
    (hw : ∀ x ∈ w, isWs x = true)
    (hd : isWs d = false) :
    afterWs (H ++ '\n' :: ((w ++ d :: e) ++ R)) =
      some (H, tailAfterNl w ++ d :: (e ++ R)) := by
  have hg1 : (H ++ '\n' :: ((w ++ d :: e) ++ R)).takeWhile isHeadChar = H :=
    takeWhile_all_append hHhc (by decide) _
  have hshape : (w ++ d :: e) ++ R = w ++ d :: (e ++ R) := by
    simp
  have hrun : ('\n' :: ((w ++ d :: e) ++ R)).takeWhile isWs = '\n' :: w := by
    rw [hshape, List.takeWhile_cons]
    simp only [show isWs '\n' = true from rfl, if_true]
    rw [takeWhile_all_append hw hd]
  simp only [afterWs, hg1, if_neg hHne]
  rw [List.drop_left]
  rw [if_neg (by simp)]
  rw [hrun, afterLastNl_newline]
  simp only [Option.some.injEq, Prod.mk.injEq, true_and]
  rw [show ('\n' :: ((w ++ d :: e) ++ R)) = ('\n' :: w) ++ (d :: (e ++ R)) by
    simp]
  rw [List.drop_left]

lemma matchAtHead_section (H c R : List Char)
    (hH : H ≠ [])
    (hh : isWs H.headI = false)
    (hHhc : ∀ x ∈ H, isHeadChar x = true)
    (hctrim : trimList c ≠ [])
    (hcsharp : '#' ∉ c)
    (hR : R = [] ∨ lookOk R = true) :
    ∃ g2, matchAtHead ('#' :: ' ' :: (H ++ '\n' :: (c ++ R))) =
        some (H, g2, R) ∧ trimList g2 = trimList c := by
  obtain ⟨hd0, tl0, rfl⟩ : ∃ a b, H = a :: b := by
    cases H with
    | nil => exact absurd rfl hH
    | cons a b => exact ⟨a, b, rfl⟩
  have hhd : isWs hd0 = false := by simpa [List.headI] using hh
  obtain ⟨w, d, e, hceq, hwws, hdws⟩ := trim_ne_decomp hctrim
  subst hceq
  have hws : wsLen ((hd0 :: tl0) ++ '\n' :: ((w ++ d :: e) ++ R)) = 0 := by
    unfold wsLen
    rw [List.cons_append, List.takeWhile_cons, hhd]
    rfl
  have hws1 : wsLen (' ' :: ((hd0 :: tl0) ++ '\n' :: ((w ++ d :: e) ++ R))) =
      1 := by
    unfold wsLen
    rw [List.takeWhile_cons]
    simp only [show isWs ' ' = true from rfl, if_true]
    unfold wsLen at hws
    rw [List.length_cons, hws]
  have haw := afterWs_section (hd0 :: tl0) w e R d (by simp) hHhc hwws hdws
  have htry : tryWs (' ' :: ((hd0 :: tl0) ++ '\n' :: ((w ++ d :: e) ++ R))) 1 =
      some (hd0 :: tl0, tailAfterNl w ++ d :: (e ++ R)) := by
    have hdr : (' ' :: ((hd0 :: tl0) ++ '\n' :: ((w ++ d :: e) ++ R))).drop 1 =
        (hd0 :: tl0) ++ '\n' :: ((w ++ d :: e) ++ R) := rfl
    simp only [tryWs, hdr, haw]
  have hsplit : splitAtLookahead (tailAfterNl w ++ d :: (e ++ R)) =
      (tailAfterNl w ++ d :: e, R) := by
    rw [show tailAfterNl w ++ d :: (e ++ R) =
      (tailAfterNl w ++ d :: e) ++ R by simp]
    apply splitAtLookahead_append
    · intro x hx he
      subst he
      apply hcsharp
      rcases List.mem_append.mp hx with hx | hx
      · exact List.mem_append.mpr (Or.inl (tailAfterNl_mem _ hx))
      · exact List.mem_append.mpr (Or.inr hx)
    · exact hR
  refine ⟨tailAfterNl w ++ d :: e, ?_, ?_⟩
  · simp only [matchAtHead, if_pos rfl, if_true, hws1, htry, hsplit]
  · rw [trim_ws_append (fun x hx => hwws x (tailAfterNl_mem x hx)),
      trim_ws_append hwws]

lemma findMatch_cons {c : Char} {t : List Char}
    {r : List Char × List Char × List Char}
    (h : matchAtHead (c :: t) = some r) : findMatch (c :: t) = some r := by
  simp [findMatch, h]

lemma sectionScan_step {s g1 g2 rest : List Char}
    {ms : List (List Char × List Char)}
    (h : findMatch s = some (g1, g2, rest)) (hr : sectionScan rest = some ms) :
    sectionScan s = some ((g1, g2) :: ms) := by
  obtain ⟨ms', h1, h2⟩ := sectionScan_cons h
  rw [h1] at hr
  obtain rfl : ms' = ms := Option.some.inj hr
  exact h2

/-! ## Round-trip over a well-formed six-section text (claim C1) -/

/-- A well-formed section: `# <Name>` on its own line, content below. -/
def sectionBlock (name : String) (rest : List Char) : List Char :=
  '#' :: ' ' :: (name.toList ++ '\n' :: rest)

/-- A raw text containing the six well-formed headings in order, each on
its own line with its content on the following lines. -/
def buildStoryText (c1 c2 c3 c4 c5 c6 : List Char) : List Char :=
  sectionBlock "Title" (c1 ++ '\n' ::
    sectionBlock "Introduction" (c2 ++ '\n' ::
      sectionBlock "Emotional Trigger" (c3 ++ '\n' ::
        sectionBlock "Concept Explanation" (c4 ++ '\n' ::
          sectionBlock "Resolution" (c5 ++ '\n' ::
            sectionBlock "Moral Message" c6)))))

lemma nl_all_ws : ∀ x ∈ ['\n'], isWs x = true := by
  intro x hx
  simp only [List.mem_singleton] at hx
  subst hx
  rfl

lemma findMatch_block_mid (name : String) (ci R : List Char)
    (hne : name.toList ≠ [])
    (hh : isWs name.toList.headI = false)
    (hHhc : ∀ x ∈ name.toList, isHeadChar x = true)
    (htrim : trimList ci ≠ [])
    (hsharp : '#' ∉ ci)
    (hR : lookOk R = true) :
    ∃ q, findMatch (sectionBlock name (ci ++ '\n' :: R)) =
        some (name.toList, q, R) ∧ trimList q = trimList ci := by
  have h1 : trimList (ci ++ ['\n']) ≠ [] := by
    rw [trim_append_ws nl_all_ws]
    exact htrim
  have h2 : '#' ∉ ci ++ ['\n'] := by
    intro hx
    rcases List.mem_append.mp hx with hx | hx
    · exact hsharp hx
    · simp at hx
  obtain ⟨q, hm, ht⟩ := matchAtHead_section name.toList (ci ++ ['\n']) R
    hne hh hHhc h1 h2 (Or.inr hR)
  refine ⟨q, ?_, by rw [ht, trim_append_ws nl_all_ws]⟩
  have hshape : sectionBlock name (ci ++ '\n' :: R) =
      '#' :: ' ' :: (name.toList ++ '\n' :: ((ci ++ ['\n']) ++ R)) := by
    unfold sectionBlock
    simp
  rw [hshape]
  exact findMatch_cons hm

lemma findMatch_block_last (name : String) (c : List Char)
    (hne : name.toList ≠ [])
    (hh : isWs name.toList.headI = false)
    (hHhc : ∀ x ∈ name.toList, isHeadChar x = true)
    (htrim : trimList c ≠ [])
    (hsharp : '#' ∉ c) :
    ∃ q, findMatch (sectionBlock name c) =
        some (name.toList, q, []) ∧ trimList q = trimList c := by
  obtain ⟨q, hm, ht⟩ := matchAtHead_section name.toList c []
    hne hh hHhc htrim hsharp (Or.inl rfl)
  refine ⟨q, ?_, ht⟩
  have hshape : sectionBlock name c =
      '#' :: ' ' :: (name.toList ++ '\n' :: (c ++ [])) := by
    unfold sectionBlock
    simp
  rw [hshape]
  exact findMatch_cons hm

/-- The record the round-trip is expected to produce. -/
def storyOf (c1 c2 c3 c4 c5 c6 : List Char) : PartialStory :=
  { title := some (trimList c1), introduction := some (trimList c2),
    emotional_trigger := some (trimList c3),
    concept_explanation := some (trimList c4),
    resolution := some (trimList c5),
    moral_message := some (trimList c6) }

/-- Claim C1: for every raw text containing all six well-formed section
headings — formalized as `buildStoryText`, each heading on its own line
followed by content that has a non-blank character and no `#` — the parser
returns a record whose six fields are exactly the section contents with
only leading/trailing whitespace removed, and the required-key validation
succeeds (no `StoryGenerationError`). -/
theorem claim1_parse_validate_round_trip
    (c1 c2 c3 c4 c5 c6 : List Char)
    (h1 : '#' ∉ c1) (h2 : '#' ∉ c2) (h3 : '#' ∉ c3)
    (h4 : '#' ∉ c4) (h5 : '#' ∉ c5) (h6 : '#' ∉ c6)
    (n1 : trimList c1 ≠ []) (n2 : trimList c2 ≠ []) (n3 : trimList c3 ≠ [])
    (n4 : trimList c4 ≠ []) (n5 : trimList c5 ≠ []) (n6 : trimList c6 ≠ []) :
    ∃ st, parseStoryFromMarkdown (buildStoryText c1 c2 c3 c4 c5 c6) =
        some st ∧
      st.title = some (trimList c1) ∧
      st.introduction = some (trimList c2) ∧
      st.emotional_trigger = some (trimList c3) ∧
      st.concept_explanation = some (trimList c4) ∧
      st.resolution = some (trimList c5) ∧
      st.moral_message = some (trimList c6) ∧
      validateRecord st = Except.ok st := by
  obtain ⟨q6, hf6, ht6⟩ := findMatch_block_last "Moral Message" c6
    (by decide) (by decide) (by decide) n6 h6
  obtain ⟨q5, hf5, ht5⟩ := findMatch_block_mid "Resolution" c5
    (sectionBlock "Moral Message" c6)
    (by decide) (by decide) (by decide) n5 h5 rfl
  obtain ⟨q4, hf4, ht4⟩ := findMatch_block_mid "Concept Explanation" c4
    (sectionBlock "Resolution" (c5 ++ '\n' :: sectionBlock "Moral Message" c6))
    (by decide) (by decide) (by decide) n4 h4 rfl
  obtain ⟨q3, hf3, ht3⟩ := findMatch_block_mid "Emotional Trigger" c3
    (sectionBlock "Concept Explanation" (c4 ++ '\n' ::
      sectionBlock "Resolution" (c5 ++ '\n' ::
        sectionBlock "Moral Message" c6)))
    (by decide) (by decide) (by decide) n3 h3 rfl
  obtain ⟨q2, hf2, ht2⟩ := findMatch_block_mid "Introduction" c2
    (sectionBlock "Emotional Trigger" (c3 ++ '\n' ::
      sectionBlock "Concept Explanation" (c4 ++ '\n' ::
        sectionBlock "Resolution" (c5 ++ '\n' ::
          sectionBlock "Moral Message" c6))))
    (by decide) (by decide) (by decide) n2 h2 rfl
  obtain ⟨q1, hf1, ht1⟩ := findMatch_block_mid "Title" c1
    (sectionBlock "Introduction" (c2 ++ '\n' ::
      sectionBlock "Emotional Trigger" (c3 ++ '\n' ::
        sectionBlock "Concept Explanation" (c4 ++ '\n' ::
          sectionBlock "Resolution" (c5 ++ '\n' ::
            sectionBlock "Moral Message" c6)))))
    (by decide) (by decide) (by decide) n1 h1 rfl
  have hscan6 : sectionScan (sectionBlock "Moral Message" c6) =
      some [("Moral Message".toList, q6)] :=
    sectionScan_step hf6 rfl
  have hscan5 := sectionScan_step hf5 hscan6
  have hscan4 := sectionScan_step hf4 hscan5
  have hscan3 := sectionScan_step hf3 hscan4
  have hscan2 := sectionScan_step hf2 hscan3
  have hscan1 := sectionScan_step hf1 hscan2
  have happ : applyMatches {}
      [("Title".toList, q1), ("Introduction".toList, q2),
       ("Emotional Trigger".toList, q3), ("Concept Explanation".toList, q4),
       ("Resolution".toList, q5), ("Moral Message".toList, q6)] =
      { title := some (trimList q1), introduction := some (trimList q2),
        emotional_trigger := some (trimList q3),
        concept_explanation := some (trimList q4),
        resolution := some (trimList q5),
        moral_message := some (trimList q6) } := rfl
  have hrec :
      ({ title := some (trimList q1), introduction := some (trimList q2),
         emotional_trigger := some (trimList q3),
         concept_explanation := some (trimList q4),
         resolution := some (trimList q5),
         moral_message := some (trimList q6) } : PartialStory) =
      storyOf c1 c2 c3 c4 c5 c6 := by
    rw [ht1, ht2, ht3, ht4, ht5, ht6]
    rfl
  have htf : titleFallback (buildStoryText c1 c2 c3 c4 c5 c6)
      (storyOf c1 c2 c3 c4 c5 c6) =
      storyOf c1 c2 c3 c4 c5 c6 := by
    unfold titleFallback
    rw [show falsyOpt (storyOf c1 c2 c3 c4 c5 c6).title = false from
      isEmpty_false_of_ne_nil n1]
    rfl
  refine ⟨storyOf c1 c2 c3 c4 c5 c6, ?_, rfl, rfl, rfl, rfl, rfl, rfl,
      ?_⟩
  · show parseStoryFromMarkdown (buildStoryText c1 c2 c3 c4 c5 c6) = _
    unfold parseStoryFromMarkdown buildStoryText
    rw [hscan1, Option.map_some']
    rw [show buildStoryText c1 c2 c3 c4 c5 c6 =
      sectionBlock "Title" (c1 ++ '\n' ::
        sectionBlock "Introduction" (c2 ++ '\n' ::
          sectionBlock "Emotional Trigger" (c3 ++ '\n' ::
            sectionBlock "Concept Explanation" (c4 ++ '\n' ::
              sectionBlock "Resolution" (c5 ++ '\n' ::
                sectionBlock "Moral Message" c6))))) from rfl] at htf
    rw [happ, hrec, htf]
  · show validateRecord _ = _
    have k1 : keyMissing
        (storyOf c1 c2 c3 c4 c5 c6) .title = false := by
      show (trimList (trimList c1)).isEmpty = false
      rw [trim_trim]
      exact isEmpty_false_of_ne_nil n1
    have k2 : keyMissing
        (storyOf c1 c2 c3 c4 c5 c6) .introduction = false := by
      show (trimList (trimList c2)).isEmpty = false
      rw [trim_trim]
      exact isEmpty_false_of_ne_nil n2
    have k4 : keyMissing
        (storyOf c1 c2 c3 c4 c5 c6) .concept_explanation =
        false := by
      show (trimList (trimList c4)).isEmpty = false
      rw [trim_trim]
      exact isEmpty_false_of_ne_nil n4
    have k5 : keyMissing
        (storyOf c1 c2 c3 c4 c5 c6) .resolution = false := by
      show (trimList (trimList c5)).isEmpty = false
      rw [trim_trim]
      exact isEmpty_false_of_ne_nil n5
    have k6 : keyMissing
        (storyOf c1 c2 c3 c4 c5 c6) .moral_message = false := by
      show (trimList (trimList c6)).isEmpty = false
      rw [trim_trim]
      exact isEmpty_false_of_ne_nil n6
    have hmiss : missingKeys
        (storyOf c1 c2 c3 c4 c5 c6) = [] := by
      unfold missingKeys requiredKeys
      simp [List.filter_cons, k1, k2, k4, k5, k6]
    unfold validateRecord
    rw [hmiss]
    rfl

/-- Witness for C1: the spec's concrete example (plus an emotional-trigger
section) round-trips through parse and validation. -/
theorem claim1_parse_validate_round_trip_witness :
    ∃ st, parseStoryFromMarkdown (buildStoryText
        "The Brave Raindrop".toList
        "Once there was a raindrop...".toList
        "It was scared of falling.".toList
        "Water cycles through evaporation...".toList
        "The raindrop became part of a river.".toList
        "Small things can be part of something big.".toList) = some st ∧
      st.title = some (trimList "The Brave Raindrop".toList) ∧
      st.introduction = some (trimList "Once there was a raindrop...".toList) ∧
      st.emotional_trigger =
        some (trimList "It was scared of falling.".toList) ∧
      st.concept_explanation =
        some (trimList "Water cycles through evaporation...".toList) ∧
      st.resolution =
        some (trimList "The raindrop became part of a river.".toList) ∧
      st.moral_message =
        some (trimList "Small things can be part of something big.".toList) ∧
      validateRecord st = Except.ok st :=
  claim1_parse_validate_round_trip
    "The Brave Raindrop".toList
    "Once there was a raindrop...".toList
    "It was scared of falling.".toList
    "Water cycles through evaporation...".toList
    "The raindrop became part of a river.".toList
    "Small things can be part of something big.".toList
    (by decide) (by decide) (by decide) (by decide) (by decide) (by decide)
    (by decide) (by decide) (by decide) (by decide) (by decide) (by decide)
